import Mathlib

/-!
Verification development for the WhatsApp trivia bot core
(`trivia_bot.py`): the answer normalization function, the concurrent
answer-validation routine `check_answer`, the per-round reset performed by
`run_question`, and the round timeline with its leaderboard finalization.

Strings are modelled as `List Char` over the ASCII fragment (Python's
`str.lower`, `re` classes `\w`/`\s` and `str.strip` restricted to ASCII).
Python values that may be absent or non-string are modelled as `Option`.
-/

namespace TriviaBot

/-- Python `str` restricted to the ASCII fragment, as a list of characters. -/
abbrev Str := List Char

/-- The ASCII whitespace class of Python's regex `\s` and `str.strip`. -/
def isSpaceChar (c : Char) : Bool :=
  c = ' ' || c = '\t' || c = '\n' || c = '\r' || c = '\x0b' || c = '\x0c'

/-- The ASCII word class of Python's regex `\w`: alphanumeric or underscore. -/
def isWordChar (c : Char) : Bool :=
  c.isAlphanum || c = '_'

/-- Characters surviving `re.sub(r"[^\w\s]", "", text)`: word or whitespace. -/
def keepChar (c : Char) : Bool :=
  isWordChar c || isSpaceChar c

/-- `re.sub(r"\s+", " ", text)`: every maximal whitespace run becomes one `' '`. -/
def collapseWs : Str → Str
  | [] => []
  | [c] => if isSpaceChar c then [' '] else [c]
  | c :: d :: rest =>
      if isSpaceChar c && isSpaceChar d then collapseWs (d :: rest)
      else (if isSpaceChar c then ' ' else c) :: collapseWs (d :: rest)

/-- Remove the maximal all-whitespace suffix (the right half of `str.strip`). -/
def dropTrailingWs : Str → Str
  | [] => []
  | c :: rest =>
    match dropTrailingWs rest with
    | [] => if isSpaceChar c then [] else [c]
    | r => c :: r

/-- Python `str.strip()`: remove leading and trailing whitespace. -/
def stripWs (l : Str) : Str :=
  (dropTrailingWs l).dropWhile isSpaceChar

/-- `normalize` from `trivia_bot.py`.  `none` models a non-`str` Python input
(`None`, `int`, ...).  For a string: lowercase, delete every character that is
neither a word character nor whitespace, collapse whitespace runs to a single
space, strip. -/
def normalize : Option Str → Str
  | none => []
  | some s => stripWs (collapseWs ((s.map Char.toLower).filter keepChar))

/-- `a.lower().strip()`, the transformation `run_question` (and the CSV
loader) actually applies to each caller-supplied accepted answer. -/
def lowerStrip (a : Str) : Str :=
  stripWs (a.map Char.toLower)

/-- Prepend a character to the first block of a block list (or open the
first block). -/
def wordsExtend (c : Char) : List Str → List Str
  | [] => [[c]]
  | w :: ws2 => (c :: w) :: ws2

/-- Attach a non-whitespace character to the block decomposition of the
rest of the string: start a fresh block when the rest begins with
whitespace (or is empty), otherwise extend the rest's first block. -/
def wordsGlue (c : Char) : Str → List Str → List Str
  | [], _ => [[c]]
  | d :: _, ws =>
    if isSpaceChar d then [c] :: ws
    else wordsExtend c ws

/-- Maximal whitespace-free nonempty blocks of a string, in order. -/
def wordsOf : Str → List Str
  | [] => []
  | c :: rest =>
    if isSpaceChar c then wordsOf rest
    else wordsGlue c rest (wordsOf rest)

/-- Join blocks with single spaces. -/
def joinSpace : List Str → Str
  | [] => []
  | [w] => w
  | w :: ws => w ++ ' ' :: joinSpace ws

/-- Modelled from the spec sentence for C7 ("lowercase, strip all characters
that are neither alphanumeric nor whitespace, collapse runs of whitespace to a
single space, trim; non-string input normalizes to an empty string"),
rendered independently through words-and-join. -/
def specNormalizeAlnum : Option Str → Str
  | none => []
  | some s =>
      joinSpace (wordsOf ((s.map Char.toLower).filter
        (fun c => c.isAlphanum || isSpaceChar c)))

/-- The amended reading of C7: same pipeline but keeping Python word
characters (alphanumeric or underscore), rendered through words-and-join. -/
def wordNormalize : Option Str → Str
  | none => []
  | some s =>
      joinSpace (wordsOf ((s.map Char.toLower).filter keepChar))

/-- `QUESTION_DURATION` from `trivia_bot.py`. -/
def QUESTION_DURATION : Int := 15

/-- The `sender` sub-dictionary of an inbound message; either field may be
absent. -/
structure SenderInfo where
  id : Option String
  pushname : Option String
deriving DecidableEq

/-- An inbound WhatsApp message as consumed by `check_answer`.  Absent keys
are `none` (for the boolean keys, Python `.get` yields `None`, which is
falsy, so a plain `Bool` is faithful); `body = none` also models a
non-string body, which `normalize` maps to the empty string just as the
code does. -/
structure Message where
  fromMe : Bool
  isGroupMsg : Bool
  from_ : Option String
  body : Option Str
  t : Option Int
  sender : Option SenderInfo
  id : Option String
deriving DecidableEq

/-- One recorded correct respondent (a dict appended to
`correct_respondents`). -/
structure Winner where
  user_id : String
  name : String
  timestamp : Int
  response_time : Int
deriving DecidableEq

/-- One leaderboard record (`{"question_text": ..., "winners": ...}`). -/
structure LBEntry where
  question_text : Option Str
  winners : List Winner
deriving DecidableEq

/-- The mutable state of `AsyncTriviaGameMaster` relevant to the claims.
`seen_users` and `correct_answers` are Python sets, modelled as lists with
membership semantics. -/
structure BotState where
  group_id : String
  correct_answers : List Str
  correct_respondents : List Winner
  seen_users : List String
  current_question_msg_id : Option String
  current_question_text : Option Str
  first_correct_message_id : Option String
  question_timestamp : Option Int
  cutoff_timestamp : Option Int
  leaderboard_data : List LBEntry
deriving DecidableEq

/-- `str(sender_info.get("id", sender_info))` where
`sender_info = message.get("sender", {})`: a present string id is used
as-is; otherwise Python stringifies the sender dictionary itself
(`str({})` is `"\x7b\x7d"`). -/
def senderIdOf : Option SenderInfo → String
  | none => String.mk ['\x7b', '\x7d']
  | some s =>
    match s.id with
    | some i => i
    | none =>
      match s.pushname with
      | none => String.mk ['\x7b', '\x7d']
      | some p =>
          String.mk (['\x7b', '\x27', 'p', 'u', 's', 'h', 'n', 'a', 'm',
            'e', '\x27', ':', ' ', '\x27'] ++ p.toList ++ ['\x27', '\x7d'])

/-- `sender_info.get("pushname", "Someone")`. -/
def senderNameOf : Option SenderInfo → String
  | none => "Someone"
  | some s => s.pushname.getD "Someone"

/-- Python truthiness test `not self.first_correct_message_id`: true for
`None` and for the empty string. -/
def firstFalsy : Option String → Bool
  | none => true
  | some s => s = ""

/-- The mutation block at the end of `check_answer` once every rejection
check has passed: remember the first correct message id (under the falsy
test), record the sender, and append the winner with
`response_time = msg_timestamp - question_timestamp`. -/
def acceptState (st : BotState) (m : Message) (ts qt : Int) : BotState :=
  { st with
    first_correct_message_id :=
      if firstFalsy st.first_correct_message_id then m.id
      else st.first_correct_message_id,
    seen_users := senderIdOf m.sender :: st.seen_users,
    correct_respondents := st.correct_respondents ++
      [⟨senderIdOf m.sender, senderNameOf m.sender, ts, ts - qt⟩] }

/-- Checks 5-9 of `check_answer` (timing window, correctness, duplicate
sender, winner cap) against an open round with `question_timestamp = qt`
and `cutoff_timestamp = ct`, followed by the acceptance block. -/
def check_answer_window (st : BotState) (m : Message) (ts qt ct : Int) :
    BotState :=
  if ts < qt then st
  else if ct < ts then st
  else if normalize m.body ∈ st.correct_answers then
    if senderIdOf m.sender ∈ st.seen_users then st
    else if 5 ≤ st.correct_respondents.length then st
    else acceptState st m ts qt
  else st

/-- The lock-guarded tail of `check_answer`: check 4 (no open round when
either timestamp is `None`) then the windowed checks. -/
def check_answer_locked (st : BotState) (m : Message) (ts : Int) : BotState :=
  match st.question_timestamp with
  | none => st
  | some qt =>
    match st.cutoff_timestamp with
    | none => st
    | some ct => check_answer_window st m ts qt ct

/-- Check 3 of `check_answer`: a message without a timestamp is rejected
with a logged warning. -/
def check_answer_ts (st : BotState) (m : Message) : Option Int → BotState
  | none => st
  | some ts => check_answer_locked st m ts

/-- `check_answer` on a non-`None` message: the unguarded filters (checks
1-2 of the spec) followed by the timestamp check and the lock-guarded
tail. -/
def check_answer_msg (st : BotState) (m : Message) : BotState :=
  if m.fromMe then st
  else if !m.isGroupMsg then st
  else if m.from_ ≠ some st.group_id then st
  else if normalize m.body = [] then st
  else check_answer_ts st m m.t

/-- `AsyncTriviaGameMaster.check_answer`.  `none` models a `None`/empty
message (Python `not message`).  The function only returns the updated
state: every rejection path leaves the state untouched, and the
`try/except` wrapper makes the Python callback total just as this
function is. -/
def check_answer (st : BotState) (mo : Option Message) : BotState :=
  match mo with
  | none => st
  | some m => check_answer_msg st m

/-- The first lock-guarded block of `run_question`: reset the per-question
state, storing `{a.lower().strip() for a in answers}` as the accepted
answers and clearing both timestamps. -/
def reset_round (st : BotState) (answers : List Str) : BotState :=
  { st with
    correct_answers := answers.map lowerStrip,
    correct_respondents := [],
    seen_users := [],
    first_correct_message_id := none,
    question_timestamp := none,
    cutoff_timestamp := none }

/-- A successful `sendText` acknowledgment: the optional server timestamp
`t` and the optional message id. -/
structure SendOk where
  t : Option Int
  id : Option String
deriving DecidableEq

/-- A Gateway script for one round: the `k`-th send operation attempted by
the round timeline (0 = announce, 1 = STOP, 2 = REP reply/send, 3 = NEXT)
either succeeds with an acknowledgment or — `none` — raises. -/
def Gateway := Nat → Option SendOk

/-- Snapshot appended to `leaderboard_data` when a round is finalized:
`{"question_text": self.current_question_text, "winners":
self.correct_respondents.copy()}`. -/
def finalizeEntry (st : BotState) : LBEntry :=
  ⟨st.current_question_text, st.correct_respondents⟩

/-- `send_next`: send "NEXT" (which may raise, propagating with no state
change), then append the leaderboard entry and reset all per-question
state.  The `Bool` is true when the send raised. -/
def send_next (st : BotState) (res : Option SendOk) : BotState × Bool :=
  match res with
  | none => (st, true)
  | some _ =>
    ({ st with
        leaderboard_data := st.leaderboard_data ++ [finalizeEntry st],
        current_question_msg_id := none,
        current_question_text := none,
        correct_answers := [],
        correct_respondents := [],
        seen_users := [],
        first_correct_message_id := none,
        question_timestamp := none,
        cutoff_timestamp := none }, false)

/-- `AsyncTriviaGameMaster.run_question`: the full round timeline.  `gw`
scripts the Gateway's send outcomes; `now` is the `int(time.time())`
fallback used when the announce acknowledgment carries no timestamp;
`ib1`/`ib2`/`ib3` are the inbound messages the `check_answer` callback
processes during the collecting wait, the grace/reveal delays, and the
advance delay respectively.  A raising send propagates out of the Python
coroutine: the returned flag is true and all remaining timeline steps —
including every leaderboard append — are skipped, while mutations already
made to the object persist. -/
def run_question (st : BotState) (q : Str) (answers : List Str)
    (is_last : Bool) (gw : Gateway) (now : Int)
    (ib1 ib2 ib3 : List (Option Message)) : BotState × Bool :=
  let st1 := reset_round st answers
  match gw 0 with
  | none => (st1, true)
  | some msg =>
    let ts := msg.t.getD now
    let st2 := { st1 with
      current_question_msg_id := msg.id,
      current_question_text := some q,
      question_timestamp := some ts,
      cutoff_timestamp := some (ts + QUESTION_DURATION) }
    let st3 := ib1.foldl check_answer st2
    match gw 1 with
    | none => (st3, true)
    | some _ =>
      let st4 := ib2.foldl check_answer st3
      match gw 2 with
      | none => (st4, true)
      | some _ =>
        if is_last then
          ({ st4 with
              leaderboard_data :=
                st4.leaderboard_data ++ [finalizeEntry st4] }, false)
        else
          let st5 := ib3.foldl check_answer st4
          send_next st5 (gw 3)

/-- Leading single space that `re.sub` collapsing leaves (and `strip` later
removes) when the input starts with whitespace yet contains a word. -/
def leadMark : Str → Str
  | [] => []
  | c :: rest =>
      if isSpaceChar c && !(wordsOf rest).isEmpty then [' '] else []

/-- Modelled from the spec sentence for C6: `acceptedAnswers` as "normalized
copy of the caller-supplied answer set", under the shared `normalize`. -/
def specAcceptedAnswers (answers : List Str) : List Str :=
  answers.map (fun a => normalize (some a))

/-- A quiescent bot state for concrete scenarios. -/
def st0 : BotState :=
  ⟨"g", [], [], [], none, none, none, none, none, []⟩

/-- An open round on answer "paris", opened at 100 with cutoff 115. -/
def stOpen : BotState :=
  { st0 with
    correct_answers := ["paris".toList],
    question_timestamp := some 100,
    cutoff_timestamp := some 115 }

/-- A concrete submission that passes all nine rejection checks against
`stOpen`. -/
def msgAccept : Message :=
  ⟨false, true, some "g", some "Paris".toList, some 105,
    some ⟨some "u1", some "Alice"⟩, some "m1"⟩

/-- `stOpen` with the winner cap already reached. -/
def stFull : BotState :=
  { stOpen with
    correct_respondents :=
      [⟨"a", "A", 101, 1⟩, ⟨"b", "B", 101, 1⟩, ⟨"c", "C", 102, 2⟩,
       ⟨"d", "D", 102, 2⟩, ⟨"e", "E", 103, 3⟩],
    seen_users := ["a", "b", "c", "d", "e"] }

/-- `stOpen` after user "u1" has already been scored. -/
def stSeen : BotState :=
  { stOpen with
    correct_respondents := [⟨"u1", "Alice", 103, 3⟩],
    seen_users := ["u1"] }

/-- `stOpen` with `first_correct_message_id` holding the empty string, a set
but Python-falsy value. -/
def stOvr : BotState :=
  { stOpen with first_correct_message_id := some "" }

/-- `msgAccept` with a fresh message id, for the overwrite scenario. -/
def mOvr : Message :=
  { msgAccept with id := some "m9" }

/-- `msgAccept` with the sender dictionary missing entirely. -/
def mNoSender : Message :=
  { msgAccept with sender := none }

/-- The round state `run_question` builds from the caller-supplied answer
set `{"Paris!"}` once its timestamps are stored. -/
def stC6 : BotState :=
  { reset_round st0 ["Paris!".toList] with
    question_timestamp := some 100,
    cutoff_timestamp := some 115 }

/-- A submission whose body normalizes to "paris", sent inside the window. -/
def mC6 : Message :=
  { msgAccept with body := some "Paris!".toList }

/-- A Gateway that acknowledges every send with timestamp 100 and id "mq". -/
def gwOk : Gateway :=
  fun _ => some ⟨some 100, some "mq"⟩

/-- A Gateway whose second send (the STOP message) raises. -/
def gwStopFail : Gateway :=
  fun k => if k = 1 then none else some ⟨some 100, some "mq"⟩

end TriviaBot

namespace TriviaBot

theorem check_answer_window_cases (st : BotState) (m : Message) (ts qt ct : Int) :
    check_answer_window st m ts qt ct = st ∨
    (qt ≤ ts ∧ ts ≤ ct ∧ normalize m.body ∈ st.correct_answers ∧
      senderIdOf m.sender ∉ st.seen_users ∧
      st.correct_respondents.length < 5 ∧
      check_answer_window st m ts qt ct = acceptState st m ts qt) := by
  unfold check_answer_window
  split_ifs with h5 h6 h7 h8 h9
  · exact Or.inl rfl
  · exact Or.inl rfl
  · exact Or.inl rfl
  · exact Or.inl rfl
  · exact Or.inr ⟨by omega, by omega, h7, h8, by omega, rfl⟩
  · exact Or.inl rfl

theorem check_answer_locked_cases (st : BotState) (m : Message) (ts : Int) :
    check_answer_locked st m ts = st ∨
    ∃ qt ct, st.question_timestamp = some qt ∧ st.cutoff_timestamp = some ct ∧
      qt ≤ ts ∧ ts ≤ ct ∧ normalize m.body ∈ st.correct_answers ∧
      senderIdOf m.sender ∉ st.seen_users ∧
      st.correct_respondents.length < 5 ∧
      check_answer_locked st m ts = acceptState st m ts qt := by
  unfold check_answer_locked
  cases hq : st.question_timestamp with
  | none => exact Or.inl rfl
  | some qt =>
    cases hc : st.cutoff_timestamp with
    | none => exact Or.inl rfl
    | some ct =>
      rcases check_answer_window_cases st m ts qt ct with h | ⟨hl, hr, h7, h8, h9, h⟩
      · exact Or.inl h
      · exact Or.inr ⟨qt, ct, rfl, rfl, hl, hr, h7, h8, h9, h⟩

theorem check_answer_msg_cases (st : BotState) (m : Message) :
    check_answer_msg st m = st ∨
    ∃ ts, m.t = some ts ∧ check_answer_msg st m = check_answer_locked st m ts := by
  unfold check_answer_msg
  split_ifs with h1 h2 h3 h4
  · exact Or.inl rfl
  · exact Or.inl rfl
  · exact Or.inl rfl
  · exact Or.inl rfl
  · cases hmt : m.t with
    | none => exact Or.inl rfl
    | some ts => exact Or.inr ⟨ts, rfl, rfl⟩

theorem check_answer_cases (st : BotState) (mo : Option Message) :
    check_answer st mo = st ∨
    ∃ m ts qt ct, mo = some m ∧ m.t = some ts ∧
      st.question_timestamp = some qt ∧ st.cutoff_timestamp = some ct ∧
      qt ≤ ts ∧ ts ≤ ct ∧ normalize m.body ∈ st.correct_answers ∧
      senderIdOf m.sender ∉ st.seen_users ∧
      st.correct_respondents.length < 5 ∧
      check_answer st mo = acceptState st m ts qt := by
  cases mo with
  | none => exact Or.inl rfl
  | some m =>
    rcases check_answer_msg_cases st m with h | ⟨ts, hts, h⟩
    · exact Or.inl h
    · rcases check_answer_locked_cases st m ts with h2 | ⟨qt, ct, hq, hc, hl, hr, h7, h8, h9, h2⟩
      · exact Or.inl (h.trans h2)
      · exact Or.inr ⟨m, ts, qt, ct, rfl, hts, hq, hc, hl, hr, h7, h8, h9, h.trans h2⟩

theorem check_answer_accept (st : BotState) (m : Message) (qt ct ts : Int)
    (h1 : m.fromMe = false) (h2 : m.isGroupMsg = true)
    (h3 : m.from_ = some st.group_id) (h4 : normalize m.body ≠ [])
    (ht : m.t = some ts)
    (hq : st.question_timestamp = some qt)
    (hc : st.cutoff_timestamp = some ct)
    (h5 : qt ≤ ts) (h6 : ts ≤ ct)
    (h7 : normalize m.body ∈ st.correct_answers)
    (h8 : senderIdOf m.sender ∉ st.seen_users)
    (h9 : st.correct_respondents.length < 5) :
    check_answer st (some m) = acceptState st m ts qt := by
  show check_answer_msg st m = _
  unfold check_answer_msg
  rw [if_neg (by simp [h1]), if_neg (by simp [h2]), if_neg (by simp [h3]),
    if_neg h4, ht]
  show check_answer_locked st m ts = _
  unfold check_answer_locked
  rw [hq, hc]
  show check_answer_window st m ts qt ct = _
  unfold check_answer_window
  rw [if_neg (by omega), if_neg (by omega), if_pos h7, if_neg h8,
    if_neg (by omega)]

theorem check_answer_unchanged_outside_window (st : BotState) (m : Message)
    (qt ct ts : Int)
    (ht : m.t = some ts)
    (hq : st.question_timestamp = some qt)
    (hc : st.cutoff_timestamp = some ct)
    (hout : ts < qt ∨ ct < ts) :
    check_answer st (some m) = st := by
  rcases check_answer_cases st (some m) with h | ⟨m2, ts2, qt2, ct2, hm, hts, hq2, hc2, hl, hr, _, _, _, _⟩
  · exact h
  · cases hm
    rw [ht] at hts
    cases hts
    rw [hq] at hq2
    cases hq2
    rw [hc] at hc2
    cases hc2
    omega

end TriviaBot

namespace TriviaBot

theorem acceptState_length (st : BotState) (m : Message) (ts qt : Int) :
    (acceptState st m ts qt).correct_respondents.length
      = st.correct_respondents.length + 1 := by
  simp [acceptState]

/-- C3: `check_answer` keeps the winner list within the cap of five, and a
state that already holds five (or more) winners is left completely
unchanged by any further message. -/
theorem c3_winner_cap (st : BotState) (mo : Option Message) :
    (5 ≤ st.correct_respondents.length → check_answer st mo = st) ∧
    (st.correct_respondents.length ≤ 5 →
      (check_answer st mo).correct_respondents.length ≤ 5) := by
  rcases check_answer_cases st mo with h | ⟨m, ts, qt, ct, hm, hts, hq, hc, hl, hr, h7, h8, h9, h⟩
  · constructor
    · intro _
      exact h
    · intro hle
      rw [h]
      exact hle
  · constructor
    · intro hge
      omega
    · intro _
      rw [h, acceptState_length]
      omega

theorem c3_winner_cap_witness :
    check_answer stFull (some msgAccept) = stFull ∧
    (check_answer stFull (some msgAccept)).correct_respondents.length ≤ 5 := by
  refine ⟨(c3_winner_cap stFull (some msgAccept)).1 (by decide),
    (c3_winner_cap stFull (some msgAccept)).2 (by decide)⟩

/-- C4: a sender already recorded in `seen_users` never changes the state,
and one evaluation step preserves both the no-duplicate-winner invariant
and the inclusion of every winner's user id in `seen_users`. -/
theorem c4_no_duplicate_user (st : BotState) (m : Message) (mo : Option Message) :
    (senderIdOf m.sender ∈ st.seen_users → check_answer st (some m) = st) ∧
    (((st.correct_respondents.map Winner.user_id).Nodup ∧
        ∀ w ∈ st.correct_respondents, w.user_id ∈ st.seen_users) →
      (((check_answer st mo).correct_respondents.map Winner.user_id).Nodup ∧
        ∀ w ∈ (check_answer st mo).correct_respondents,
          w.user_id ∈ (check_answer st mo).seen_users)) := by
  constructor
  · intro hseen
    rcases check_answer_cases st (some m) with h | ⟨m2, ts, qt, ct, hm, hts, hq, hc, hl, hr, h7, h8, h9, h⟩
    · exact h
    · cases hm
      exact absurd hseen h8
  · rintro ⟨hnd, hsub⟩
    rcases check_answer_cases st mo with h | ⟨m2, ts, qt, ct, hm, hts, hq, hc, hl, hr, h7, h8, h9, h⟩
    · rw [h]
      exact ⟨hnd, hsub⟩
    · rw [h]
      constructor
      · simp only [acceptState, List.map_append, List.map_cons, List.map_nil]
        rw [List.nodup_append]
        refine ⟨hnd, List.nodup_singleton _, ?_⟩
        intro a ha hb
        rw [List.mem_singleton] at hb
        subst hb
        rcases List.mem_map.mp ha with ⟨w, hw, hwid⟩
        exact h8 (hwid ▸ hsub w hw)
      · intro w hw
        simp only [acceptState, List.mem_append, List.mem_cons] at hw ⊢
        rcases hw with hw | hw
        · exact Or.inr (hsub w hw)
        · rcases hw with hw | hw
          · subst hw
            exact Or.inl rfl
          · exact absurd hw (List.not_mem_nil w)

theorem c4_no_duplicate_user_witness :
    check_answer stSeen (some msgAccept) = stSeen ∧
    (((check_answer stSeen (some msgAccept)).correct_respondents.map
        Winner.user_id).Nodup ∧
      ∀ w ∈ (check_answer stSeen (some msgAccept)).correct_respondents,
        w.user_id ∈ (check_answer stSeen (some msgAccept)).seen_users) := by
  refine ⟨(c4_no_duplicate_user stSeen msgAccept (some msgAccept)).1 (by decide),
    (c4_no_duplicate_user stSeen msgAccept (some msgAccept)).2 (by decide)⟩

end TriviaBot

namespace TriviaBot

/-- C2: for an open round (cutoff = opened + QUESTION_DURATION) and a
submission passing every other rejection check, both window boundaries are
inclusive: a timestamp equal to the cutoff or to the opening instant is
accepted (one winner appended), while cutoff + 1 and opening - 1 are
rejected with the state unchanged. -/
theorem c2_timing_window_inclusive (st : BotState) (m : Message) (qt : Int)
    (h1 : m.fromMe = false) (h2 : m.isGroupMsg = true)
    (h3 : m.from_ = some st.group_id) (h4 : normalize m.body ≠ [])
    (hq : st.question_timestamp = some qt)
    (hc : st.cutoff_timestamp = some (qt + QUESTION_DURATION))
    (h7 : normalize m.body ∈ st.correct_answers)
    (h8 : senderIdOf m.sender ∉ st.seen_users)
    (h9 : st.correct_respondents.length < 5) :
    (m.t = some (qt + QUESTION_DURATION) →
      (check_answer st (some m)).correct_respondents.length
        = st.correct_respondents.length + 1) ∧
    (m.t = some (qt + QUESTION_DURATION + 1) → check_answer st (some m) = st) ∧
    (m.t = some qt →
      (check_answer st (some m)).correct_respondents.length
        = st.correct_respondents.length + 1) ∧
    (m.t = some (qt - 1) → check_answer st (some m) = st) := by
  refine ⟨?_, ?_, ?_, ?_⟩
  · intro ht
    rw [check_answer_accept st m qt (qt + QUESTION_DURATION) (qt + QUESTION_DURATION)
      h1 h2 h3 h4 ht hq hc (by unfold QUESTION_DURATION; omega) le_rfl h7 h8 h9]
    exact acceptState_length st m _ qt
  · intro ht
    exact check_answer_unchanged_outside_window st m qt (qt + QUESTION_DURATION)
      (qt + QUESTION_DURATION + 1) ht hq hc (Or.inr (by omega))
  · intro ht
    rw [check_answer_accept st m qt (qt + QUESTION_DURATION) qt
      h1 h2 h3 h4 ht hq hc le_rfl (by unfold QUESTION_DURATION; omega) h7 h8 h9]
    exact acceptState_length st m _ qt
  · intro ht
    exact check_answer_unchanged_outside_window st m qt (qt + QUESTION_DURATION)
      (qt - 1) ht hq hc (Or.inl (by omega))

theorem c2_timing_window_inclusive_witness :
    (check_answer stOpen
        (some { msgAccept with t := some 115 })).correct_respondents.length
      = stOpen.correct_respondents.length + 1 ∧
    check_answer stOpen (some { msgAccept with t := some 116 })
      = stOpen := by
  constructor
  · exact (c2_timing_window_inclusive stOpen { msgAccept with t := some 115 } 100
      rfl rfl rfl (by decide) rfl (by decide) (by decide) (by decide)
      (by decide)).1 (by decide)
  · exact (c2_timing_window_inclusive stOpen { msgAccept with t := some 116 } 100
      rfl rfl rfl (by decide) rfl (by decide) (by decide) (by decide)
      (by decide)).2.1 (by decide)

/-- C10: the first locked block of `run_question` leaves both round
timestamps `None`, and `check_answer` leaves any state with a `None`
timestamp completely unchanged, so no submission can be accepted against a
half-initialized round. -/
theorem c10_half_initialized_round_rejects (st : BotState) (answers : List Str)
    (mo : Option Message) :
    (reset_round st answers).question_timestamp = none ∧
    (reset_round st answers).cutoff_timestamp = none ∧
    (∀ s : BotState,
      s.question_timestamp = none ∨ s.cutoff_timestamp = none →
      check_answer s mo = s) := by
  refine ⟨rfl, rfl, ?_⟩
  intro s hs
  rcases check_answer_cases s mo with h | ⟨m, ts, qt, ct, hm, hts, hq, hc, _, _, _, _, _, h⟩
  · exact h
  · rcases hs with hs | hs
    · rw [hs] at hq
      cases hq
    · rw [hs] at hc
      cases hc

theorem c10_half_initialized_round_rejects_witness :
    check_answer (reset_round stOpen ["paris".toList]) (some msgAccept)
      = reset_round stOpen ["paris".toList] := by
  exact (c10_half_initialized_round_rejects stOpen ["paris".toList]
    (some msgAccept)).2.2 (reset_round stOpen ["paris".toList])
    (Or.inl (c10_half_initialized_round_rejects stOpen ["paris".toList]
      (some msgAccept)).1)

end TriviaBot

namespace TriviaBot

/-- C5 counterexample: with `first_correct_message_id` already set to the
(Python-falsy) empty string, a submission passing all nine checks still
overwrites it — the claim's "unchanged otherwise" fails at this input. -/
theorem c5_counterexample :
    stOvr.first_correct_message_id = some "" ∧
    (check_answer stOvr (some mOvr)).correct_respondents.length
      = stOvr.correct_respondents.length + 1 ∧
    (check_answer stOvr (some mOvr)).first_correct_message_id = some "m9" := by
  exact ⟨rfl, by decide, by decide⟩

/-- C5 (amended): a submission passing all nine rejection checks records
exactly: the sender id is added to `seen_users`; `first_correct_message_id`
is set to this message's id if it was previously unset or the empty string
(Python falsy), and is unchanged otherwise; and a winner with
`response_time = ts - qt` is appended. -/
theorem c5_accept_effects (st : BotState) (m : Message) (qt ct ts : Int)
    (h1 : m.fromMe = false) (h2 : m.isGroupMsg = true)
    (h3 : m.from_ = some st.group_id) (h4 : normalize m.body ≠ [])
    (ht : m.t = some ts)
    (hq : st.question_timestamp = some qt)
    (hc : st.cutoff_timestamp = some ct)
    (h5 : qt ≤ ts) (h6 : ts ≤ ct)
    (h7 : normalize m.body ∈ st.correct_answers)
    (h8 : senderIdOf m.sender ∉ st.seen_users)
    (h9 : st.correct_respondents.length < 5) :
    check_answer st (some m) = { st with
      seen_users := senderIdOf m.sender :: st.seen_users,
      first_correct_message_id :=
        if firstFalsy st.first_correct_message_id then m.id
        else st.first_correct_message_id,
      correct_respondents := st.correct_respondents ++
        [⟨senderIdOf m.sender, senderNameOf m.sender, ts, ts - qt⟩] } :=
  check_answer_accept st m qt ct ts h1 h2 h3 h4 ht hq hc h5 h6 h7 h8 h9

theorem c5_accept_effects_witness :
    check_answer stOpen (some msgAccept) = { stOpen with
      seen_users := senderIdOf msgAccept.sender :: stOpen.seen_users,
      first_correct_message_id :=
        if firstFalsy stOpen.first_correct_message_id then msgAccept.id
        else stOpen.first_correct_message_id,
      correct_respondents := stOpen.correct_respondents ++
        [⟨senderIdOf msgAccept.sender, senderNameOf msgAccept.sender, 105,
          105 - 100⟩] } :=
  c5_accept_effects stOpen msgAccept 100 115 105 rfl rfl rfl (by decide)
    rfl rfl rfl (by decide) (by decide) (by decide) (by decide) (by decide)

/-- C8 counterexample: an otherwise-acceptable correct submission whose
sender dictionary is missing is NOT rejected — `check_answer` synthesizes
the sender id `str(\x7b\x7d)` and records a winner. -/
theorem c8_counterexample :
    mNoSender.sender = none ∧
    (check_answer stOpen (some mNoSender)).correct_respondents =
      [⟨String.mk ['\x7b', '\x7d'], "Someone", 105, 5⟩] := by
  exact ⟨rfl, by decide⟩

/-- C8 (amended): a message with no sender dictionary is evaluated like any
other — the evaluation is total (never raises) and, when every other check
passes, it produces a winner whose user id is the Python rendering of the
empty dict and whose display name is "Someone". -/
theorem c8_missing_sender_scores (st : BotState) (m : Message) (qt ct ts : Int)
    (hsender : m.sender = none)
    (h1 : m.fromMe = false) (h2 : m.isGroupMsg = true)
    (h3 : m.from_ = some st.group_id) (h4 : normalize m.body ≠ [])
    (ht : m.t = some ts)
    (hq : st.question_timestamp = some qt)
    (hc : st.cutoff_timestamp = some ct)
    (h5 : qt ≤ ts) (h6 : ts ≤ ct)
    (h7 : normalize m.body ∈ st.correct_answers)
    (h8 : String.mk ['\x7b', '\x7d'] ∉ st.seen_users)
    (h9 : st.correct_respondents.length < 5) :
    check_answer st (some m) = { st with
      first_correct_message_id :=
        if firstFalsy st.first_correct_message_id then m.id
        else st.first_correct_message_id,
      seen_users := String.mk ['\x7b', '\x7d'] :: st.seen_users,
      correct_respondents := st.correct_respondents ++
        [⟨String.mk ['\x7b', '\x7d'], "Someone", ts, ts - qt⟩] } := by
  have hacc := check_answer_accept st m qt ct ts h1 h2 h3 h4 ht hq hc h5 h6 h7
    (by rw [hsender]; exact h8) h9
  rw [hacc]
  simp [acceptState, hsender, senderIdOf, senderNameOf]

theorem c8_missing_sender_scores_witness :
    check_answer stOpen (some mNoSender) = { stOpen with
      first_correct_message_id :=
        if firstFalsy stOpen.first_correct_message_id then mNoSender.id
        else stOpen.first_correct_message_id,
      seen_users := String.mk ['\x7b', '\x7d'] :: stOpen.seen_users,
      correct_respondents := stOpen.correct_respondents ++
        [⟨String.mk ['\x7b', '\x7d'], "Someone", 105, 105 - 100⟩] } :=
  c8_missing_sender_scores stOpen mNoSender 100 115 105 rfl rfl rfl rfl
    (by decide) rfl rfl rfl (by decide) (by decide) (by decide) (by decide)
    (by decide)

end TriviaBot

namespace TriviaBot

theorem charOfNat_toNat (n : Nat) (h : n.isValidChar) :
    (Char.ofNat n).toNat = n := by
  unfold Char.ofNat
  rw [dif_pos h]
  rfl

theorem toLower_toLower (c : Char) : c.toLower.toLower = c.toLower := by
  unfold Char.toLower
  by_cases h : c.toNat ≥ 65 ∧ c.toNat ≤ 90
  · rw [if_pos h]
    have hv : (c.toNat + 32).isValidChar := by
      unfold Nat.isValidChar
      left
      omega
    rw [charOfNat_toNat _ hv, if_neg (by omega)]
  · rw [if_neg h, if_neg h]

theorem collapseWs_cons2 (c d : Char) (r : Str) :
    collapseWs (c :: d :: r) =
      if isSpaceChar c && isSpaceChar d then collapseWs (d :: r)
      else (if isSpaceChar c then ' ' else c) :: collapseWs (d :: r) := rfl

theorem dropTrailingWs_cons (c : Char) (rest : Str) :
    dropTrailingWs (c :: rest) =
      match dropTrailingWs rest with
      | [] => if isSpaceChar c then [] else [c]
      | r => c :: r := rfl

theorem wordsOf_cons (c : Char) (rest : Str) :
    wordsOf (c :: rest) =
      if isSpaceChar c then wordsOf rest
      else wordsGlue c rest (wordsOf rest) := rfl

theorem wordsOf_cons_space {c : Char} (l : Str) (h : isSpaceChar c = true) :
    wordsOf (c :: l) = wordsOf l := by
  rw [wordsOf_cons, if_pos h]

theorem wordsGlue_space {c d : Char} (r : Str) (ws : List Str)
    (hd : isSpaceChar d = true) :
    wordsGlue c (d :: r) ws = [c] :: ws := by
  show (if isSpaceChar d then [c] :: ws else wordsExtend c ws) = _
  rw [if_pos hd]

theorem wordsGlue_nonspace {c d : Char} (r : Str) (ws : List Str)
    (hd : isSpaceChar d = false) :
    wordsGlue c (d :: r) ws = wordsExtend c ws := by
  show (if isSpaceChar d then [c] :: ws else wordsExtend c ws) = _
  rw [hd]
  rfl

theorem wordsOf_head {d : Char} (r : Str) (hd : isSpaceChar d = false) :
    ∃ w ws, wordsOf (d :: r) = (d :: w) :: ws := by
  rw [wordsOf_cons, if_neg (by simp [hd])]
  cases r with
  | nil => exact ⟨[], [], rfl⟩
  | cons e r2 =>
    by_cases he : isSpaceChar e = true
    · rw [wordsGlue_space r2 _ he]
      exact ⟨[], wordsOf (e :: r2), rfl⟩
    · have he2 : isSpaceChar e = false := by
        cases h : isSpaceChar e
        · rfl
        · exact absurd h he
      rw [wordsGlue_nonspace r2 _ he2]
      cases hw : wordsOf (e :: r2) with
      | nil => exact ⟨[], [], rfl⟩
      | cons w ws => exact ⟨w, ws, rfl⟩

end TriviaBot

namespace TriviaBot

theorem isSpaceChar_false_of_not {c : Char} (h : ¬ isSpaceChar c = true) :
    isSpaceChar c = false := by
  cases hc : isSpaceChar c
  · rfl
  · exact absurd hc h

theorem wordsOf_blocks (l : Str) :
    ∀ w ∈ wordsOf l, w ≠ [] ∧ ∀ c ∈ w, isSpaceChar c = false ∧ c ∈ l := by
  induction l with
  | nil => intro w hw; cases hw
  | cons c t ih =>
    by_cases hc : isSpaceChar c = true
    · rw [wordsOf_cons_space t hc]
      intro w hw
      refine ⟨(ih w hw).1, ?_⟩
      intro x hx
      exact ⟨(ih w hw).2 x hx |>.1, List.mem_cons_of_mem c ((ih w hw).2 x hx).2⟩
    · have hc2 : isSpaceChar c = false := isSpaceChar_false_of_not hc
      rw [wordsOf_cons, if_neg hc]
      cases t with
      | nil =>
        intro w hw
        rcases List.mem_singleton.mp hw with rfl
        refine ⟨by simp, ?_⟩
        intro x hx
        rcases List.mem_singleton.mp hx with rfl
        exact ⟨hc2, List.mem_cons_self _ _⟩
      | cons d r =>
        by_cases hd : isSpaceChar d = true
        · rw [wordsGlue_space r _ hd]
          intro w hw
          rcases List.mem_cons.mp hw with rfl | hw
          · refine ⟨by simp, ?_⟩
            intro x hx
            rcases List.mem_singleton.mp hx with rfl
            exact ⟨hc2, List.mem_cons_self _ _⟩
          · refine ⟨(ih w hw).1, ?_⟩
            intro x hx
            exact ⟨(ih w hw).2 x hx |>.1,
              List.mem_cons_of_mem c ((ih w hw).2 x hx).2⟩
        · have hd2 : isSpaceChar d = false := isSpaceChar_false_of_not hd
          rw [wordsGlue_nonspace r _ hd2]
          rcases wordsOf_head r hd2 with ⟨w0, ws0, hw0⟩
          rw [hw0]
          intro w hw
          rcases List.mem_cons.mp hw with rfl | hw
          · refine ⟨by simp, ?_⟩
            intro x hx
            rcases List.mem_cons.mp hx with rfl | hx
            · exact ⟨hc2, List.mem_cons_self _ _⟩
            · have hm := (ih (d :: w0) (by rw [hw0]; exact List.mem_cons_self _ _)).2 x hx
              exact ⟨hm.1, List.mem_cons_of_mem c hm.2⟩
          · have hm := ih w (by rw [hw0]; exact List.mem_cons_of_mem _ hw)
            refine ⟨hm.1, ?_⟩
            intro x hx
            exact ⟨(hm.2 x hx).1, List.mem_cons_of_mem c (hm.2 x hx).2⟩

theorem joinSpace_cons (w : Str) (ws : List Str) (hne : ws ≠ []) :
    joinSpace (w :: ws) = w ++ ' ' :: joinSpace ws := by
  cases ws with
  | nil => exact absurd rfl hne
  | cons w2 ws2 => rfl

theorem mem_joinSpace {c : Char} {ws : List Str} (h : c ∈ joinSpace ws) :
    c = ' ' ∨ ∃ w ∈ ws, c ∈ w := by
  induction ws with
  | nil => cases h
  | cons w ws2 ih =>
    cases ws2 with
    | nil =>
      exact Or.inr ⟨w, List.mem_cons_self _ _, h⟩
    | cons w2 ws3 =>
      rw [joinSpace_cons w (w2 :: ws3) (by simp)] at h
      rcases List.mem_append.mp h with h | h
      · exact Or.inr ⟨w, List.mem_cons_self _ _, h⟩
      · rcases List.mem_cons.mp h with rfl | h
        · exact Or.inl rfl
        · rcases ih h with h | ⟨w3, hw3, hc3⟩
          · exact Or.inl h
          · exact Or.inr ⟨w3, List.mem_cons_of_mem _ hw3, hc3⟩

end TriviaBot

namespace TriviaBot

theorem isSpaceChar_blank : isSpaceChar ' ' = true := by decide

theorem joinSpace_extend (c : Char) (w : Str) (ws : List Str) :
    joinSpace ((c :: w) :: ws) = c :: joinSpace (w :: ws) := by
  cases ws with
  | nil => rfl
  | cons w2 ws2 => rfl

theorem leadMark_cons (c : Char) (rest : Str) :
    leadMark (c :: rest) =
      if isSpaceChar c && !(wordsOf rest).isEmpty then [' '] else [] := rfl

theorem collapseWs_ss {c d : Char} (r : Str) (hc : isSpaceChar c = true)
    (hd : isSpaceChar d = true) :
    collapseWs (c :: d :: r) = collapseWs (d :: r) := by
  rw [collapseWs_cons2, hc, hd]
  rfl

theorem collapseWs_sn {c d : Char} (r : Str) (hc : isSpaceChar c = true)
    (hd : isSpaceChar d = false) :
    collapseWs (c :: d :: r) = ' ' :: collapseWs (d :: r) := by
  rw [collapseWs_cons2, hc, hd]
  rfl

theorem collapseWs_n {c : Char} (d : Char) (r : Str)
    (hc : isSpaceChar c = false) :
    collapseWs (c :: d :: r) = c :: collapseWs (d :: r) := by
  rw [collapseWs_cons2, hc]
  rfl

theorem leadMark_nonspace {c : Char} (rest : Str)
    (hc : isSpaceChar c = false) : leadMark (c :: rest) = [] := by
  rw [leadMark_cons, hc]
  rfl

theorem leadMark_space_empty {c : Char} {rest : Str}
    (hc : isSpaceChar c = true) (hw : wordsOf rest = []) :
    leadMark (c :: rest) = [] := by
  rw [leadMark_cons, hc, hw]
  rfl

theorem leadMark_space_nonempty {c : Char} {rest : Str} {w : Str}
    {ws : List Str} (hc : isSpaceChar c = true)
    (hw : wordsOf rest = w :: ws) :
    leadMark (c :: rest) = [' '] := by
  rw [leadMark_cons, hc, hw]
  rfl

theorem dropTrailingWs_cons_of_nil {c : Char} {rest : Str}
    (h : dropTrailingWs rest = []) (hc : isSpaceChar c = false) :
    dropTrailingWs (c :: rest) = [c] := by
  rw [dropTrailingWs_cons, h, hc]
  rfl

theorem dropTrailingWs_cons_of_cons {c x : Char} {rest xs : Str}
    (h : dropTrailingWs rest = x :: xs) :
    dropTrailingWs (c :: rest) = c :: x :: xs := by
  rw [dropTrailingWs_cons, h]

theorem wordsOf_ns {c d : Char} (r : Str) (hc : isSpaceChar c = false)
    (hd : isSpaceChar d = true) :
    wordsOf (c :: d :: r) = [c] :: wordsOf (d :: r) := by
  rw [wordsOf_cons, hc, wordsGlue_space r _ hd]
  rfl

theorem wordsOf_nn {c d : Char} {r w0 : Str} {ws0 : List Str}
    (hc : isSpaceChar c = false) (hd : isSpaceChar d = false)
    (hw0 : wordsOf (d :: r) = (d :: w0) :: ws0) :
    wordsOf (c :: d :: r) = (c :: d :: w0) :: ws0 := by
  rw [wordsOf_cons, hc, wordsGlue_nonspace r _ hd, hw0]
  rfl

theorem dropTrailing_collapse (l : Str) :
    dropTrailingWs (collapseWs l) = leadMark l ++ joinSpace (wordsOf l) := by
  induction l with
  | nil => rfl
  | cons c t ih =>
    cases t with
    | nil =>
      cases hc : isSpaceChar c <;>
        simp [collapseWs, dropTrailingWs, leadMark_cons, wordsOf_cons,
          wordsGlue, joinSpace, hc, isSpaceChar_blank,
          show wordsOf [] = [] from rfl]
    | cons d r =>
      cases hc : isSpaceChar c <;> cases hd : isSpaceChar d
      · -- word then word
        rcases wordsOf_head (d := d) r hd with ⟨w0, ws0, hw0⟩
        have hinner : dropTrailingWs (collapseWs (d :: r))
            = d :: joinSpace (w0 :: ws0) := by
          rw [ih, leadMark_nonspace r hd, hw0, joinSpace_extend]
          rfl
        rw [collapseWs_n d r hc, dropTrailingWs_cons_of_cons hinner,
          leadMark_nonspace _ hc, wordsOf_nn hc hd hw0, joinSpace_extend,
          joinSpace_extend]
        rfl
      · -- word then whitespace
        cases hwr : wordsOf r with
        | nil =>
          have hinner : dropTrailingWs (collapseWs (d :: r)) = [] := by
            rw [ih, leadMark_space_empty hd hwr, wordsOf_cons_space r hd, hwr]
            rfl
          rw [collapseWs_n d r hc, dropTrailingWs_cons_of_nil hinner hc,
            leadMark_nonspace _ hc, wordsOf_ns r hc hd,
            wordsOf_cons_space r hd, hwr]
          rfl
        | cons w2 ws2 =>
          have hinner : dropTrailingWs (collapseWs (d :: r))
              = ' ' :: joinSpace (w2 :: ws2) := by
            rw [ih, leadMark_space_nonempty hd hwr, wordsOf_cons_space r hd,
              hwr]
            rfl
          rw [collapseWs_n d r hc, dropTrailingWs_cons_of_cons hinner,
            leadMark_nonspace _ hc, wordsOf_ns r hc hd,
            wordsOf_cons_space r hd, hwr,
            joinSpace_cons [c] (w2 :: ws2) (by simp)]
          rfl
      · -- whitespace then word
        rcases wordsOf_head (d := d) r hd with ⟨w0, ws0, hw0⟩
        have hinner : dropTrailingWs (collapseWs (d :: r))
            = d :: joinSpace (w0 :: ws0) := by
          rw [ih, leadMark_nonspace r hd, hw0, joinSpace_extend]
          rfl
        rw [collapseWs_sn r hc hd, dropTrailingWs_cons_of_cons hinner,
          wordsOf_cons_space _ hc, hw0,
          leadMark_space_nonempty hc (hw0 : wordsOf (d :: r) = _),
          joinSpace_extend]
        rfl
      · -- whitespace then whitespace
        rw [collapseWs_ss r hc hd, ih, wordsOf_cons_space _ hc,
          leadMark_cons, leadMark_cons, hc, hd, wordsOf_cons_space r hd]

end TriviaBot

namespace TriviaBot

theorem leadMark_eq_nil_or_blank (l : Str) :
    leadMark l = [] ∨ leadMark l = [' '] := by
  cases l with
  | nil => exact Or.inl rfl
  | cons c rest =>
    rw [leadMark_cons]
    by_cases h : (isSpaceChar c && !(wordsOf rest).isEmpty) = true
    · rw [if_pos h]
      exact Or.inr rfl
    · rw [if_neg h]
      exact Or.inl rfl

theorem leadMark_eq_nil_of_words_nil {l : Str} (h : wordsOf l = []) :
    leadMark l = [] := by
  cases l with
  | nil => rfl
  | cons c rest =>
    cases hc : isSpaceChar c
    · exact leadMark_nonspace rest hc
    · exact leadMark_space_empty hc (by rw [← wordsOf_cons_space rest hc]; exact h)

theorem stripWs_collapseWs (l : Str) :
    stripWs (collapseWs l) = joinSpace (wordsOf l) := by
  unfold stripWs
  rw [dropTrailing_collapse]
  cases hw : wordsOf l with
  | nil =>
    rw [leadMark_eq_nil_of_words_nil hw]
    rfl
  | cons w ws =>
    have hblock := wordsOf_blocks l w (by rw [hw]; exact List.mem_cons_self _ _)
    rcases hblock with ⟨hne, hchars⟩
    cases w with
    | nil => exact absurd rfl hne
    | cons x xs =>
      have hx : isSpaceChar x = false := (hchars x (List.mem_cons_self _ _)).1
      rw [joinSpace_extend]
      rcases leadMark_eq_nil_or_blank l with hlm | hlm <;> rw [hlm]
      · rw [List.nil_append, List.dropWhile_cons, hx]
        rfl
      · rw [List.singleton_append, List.dropWhile_cons, isSpaceChar_blank,
          List.dropWhile_cons, hx]
        rfl

theorem normalize_words (x : Option Str) : normalize x = wordNormalize x := by
  cases x with
  | none => rfl
  | some s => exact stripWs_collapseWs _

theorem wordsOf_append (w l : Str) (hne : w ≠ [])
    (hns : ∀ c ∈ w, isSpaceChar c = false)
    (hl : l = [] ∨ ∃ d r, l = d :: r ∧ isSpaceChar d = true) :
    wordsOf (w ++ l) = w :: wordsOf l := by
  induction w with
  | nil => exact absurd rfl hne
  | cons c w2 ih =>
    have hc : isSpaceChar c = false := hns c (List.mem_cons_self _ _)
    cases w2 with
    | nil =>
      rcases hl with rfl | ⟨d, r, rfl, hd⟩
      · rw [List.singleton_append]
        rw [wordsOf_cons, hc]
        rfl
      · rw [List.singleton_append]
        exact wordsOf_ns r hc hd
    | cons c2 w3 =>
      have hih : wordsOf ((c2 :: w3) ++ l) = (c2 :: w3) :: wordsOf l :=
        ih (by simp) (fun a ha => hns a (List.mem_cons_of_mem _ ha))
      have hc2 : isSpaceChar c2 = false :=
        hns c2 (List.mem_cons_of_mem _ (List.mem_cons_self _ _))
      show wordsOf (c :: c2 :: (w3 ++ l)) = _
      exact wordsOf_nn hc hc2 hih

theorem wordsOf_join (ws : List Str) (h1 : ∀ w ∈ ws, w ≠ [])
    (h2 : ∀ w ∈ ws, ∀ c ∈ w, isSpaceChar c = false) :
    wordsOf (joinSpace ws) = ws := by
  induction ws with
  | nil => rfl
  | cons w ws2 ih =>
    cases ws2 with
    | nil =>
      show wordsOf w = [w]
      have := wordsOf_append w [] (h1 w (List.mem_cons_self _ _))
        (h2 w (List.mem_cons_self _ _)) (Or.inl rfl)
      rw [List.append_nil] at this
      rw [this]
      rfl
    | cons w2 ws3 =>
      rw [joinSpace_cons w (w2 :: ws3) (by simp)]
      rw [wordsOf_append w (' ' :: joinSpace (w2 :: ws3))
        (h1 w (List.mem_cons_self _ _)) (h2 w (List.mem_cons_self _ _))
        (Or.inr ⟨' ', joinSpace (w2 :: ws3), rfl, isSpaceChar_blank⟩)]
      rw [wordsOf_cons_space _ isSpaceChar_blank]
      rw [ih (fun a ha => h1 a (List.mem_cons_of_mem _ ha))
        (fun a ha => h2 a (List.mem_cons_of_mem _ ha))]

theorem map_eq_self_of_mem {l : Str} {f : Char → Char}
    (h : ∀ c ∈ l, f c = c) : l.map f = l := by
  induction l with
  | nil => rfl
  | cons c t ih =>
    rw [List.map_cons, h c (List.mem_cons_self _ _),
      ih (fun a ha => h a (List.mem_cons_of_mem _ ha))]

theorem normalize_char_facts (x : Option Str) :
    ∀ c ∈ normalize x, keepChar c = true ∧ c.toLower = c := by
  cases x with
  | none => intro c hc; cases hc
  | some s =>
    rw [normalize_words]
    intro c hc
    rcases mem_joinSpace hc with rfl | ⟨w, hw, hcw⟩
    · exact ⟨by decide, by decide⟩
    · have hm := (wordsOf_blocks _ w hw).2 c hcw
      have hmem := hm.2
      have hkeep := (List.mem_filter.mp hmem).2
      rcases List.mem_map.mp (List.mem_filter.mp hmem).1 with ⟨c0, _, rfl⟩
      exact ⟨hkeep, toLower_toLower c0⟩

end TriviaBot

namespace TriviaBot

/-- C7 counterexample: Python's `\w` keeps the underscore, which is neither
alphanumeric nor whitespace, so `normalize` differs from the spec's stated
removal set at the input "_". -/
theorem c7_counterexample :
    normalize (some ['_']) = ['_'] ∧
    specNormalizeAlnum (some ['_']) = [] ∧
    normalize (some ['_']) ≠ specNormalizeAlnum (some ['_']) := by
  exact ⟨by decide, by decide, by decide⟩

/-- C7 (amended): `normalize` lowercases, removes every character that is
neither a word character (alphanumeric or underscore) nor whitespace,
collapses whitespace runs to a single space and trims — equivalently, it
returns the surviving blocks joined by single spaces — and maps every
non-string input to the empty string. -/
theorem c7_normalize_spec (x : Option Str) : normalize x = wordNormalize x :=
  normalize_words x

/-- C9: `normalize` is idempotent. -/
theorem c9_normalize_idempotent (x : Option Str) :
    normalize (some (normalize x)) = normalize x := by
  cases x with
  | none => rfl
  | some s =>
    have hfacts := normalize_char_facts (some s)
    have hmap : (normalize (some s)).map Char.toLower = normalize (some s) :=
      map_eq_self_of_mem (fun c hc => (hfacts c hc).2)
    have hfilter : (normalize (some s)).filter keepChar = normalize (some s) :=
      List.filter_eq_self.mpr (fun c hc => (hfacts c hc).1)
    have hrepr : normalize (some s) =
        joinSpace (wordsOf ((s.map Char.toLower).filter keepChar)) :=
      normalize_words (some s)
    show stripWs (collapseWs
      (((normalize (some s)).map Char.toLower).filter keepChar)) = _
    rw [hmap, hfilter, stripWs_collapseWs, hrepr]
    rw [wordsOf_join (wordsOf ((s.map Char.toLower).filter keepChar))
      (fun w hw => (wordsOf_blocks _ w hw).1)
      (fun w hw c hc => ((wordsOf_blocks _ w hw).2 c hc).1)]

/-- C6 counterexample: `run_question` stores `a.lower().strip()`, not the
shared `normalize`: from the caller-supplied answer set containing
"Paris!", the stored accepted answer keeps the bang and is therefore
missed by the submission "Paris!", whose body normalizes to "paris". -/
theorem c6_counterexample :
    "paris!".toList ∈ (reset_round st0 ["Paris!".toList]).correct_answers ∧
    "paris!".toList ∉ specAcceptedAnswers ["Paris!".toList] ∧
    check_answer stC6 (some mC6) = stC6 := by
  exact ⟨by decide, by decide, by decide⟩

/-- C6 (amended): `acceptedAnswers` at round start is the image of the
caller-supplied answer set under lowercase-and-trim (not under the shared
`normalize`); consequently a stored accepted answer that retains a
character `normalize` would strip can never be matched by any submission
body. -/
theorem c6_reset_answers (st : BotState) (answers : List Str) :
    (∀ x, x ∈ (reset_round st answers).correct_answers ↔
      ∃ a ∈ answers, x = lowerStrip a) ∧
    (∀ x ∈ (reset_round st answers).correct_answers,
      (∃ c ∈ x, keepChar c = false) → ∀ b, normalize b ≠ x) := by
  constructor
  · intro x
    show x ∈ answers.map lowerStrip ↔ _
    rw [List.mem_map]
    constructor
    · rintro ⟨a, ha, rfl⟩
      exact ⟨a, ha, rfl⟩
    · rintro ⟨a, ha, rfl⟩
      exact ⟨a, ha, rfl⟩
  · rintro x _ ⟨c, hcx, hbad⟩ b hb
    have := (normalize_char_facts b c (hb ▸ hcx)).1
    rw [this] at hbad
    cases hbad

theorem c6_reset_answers_witness :
    ("paris!".toList ∈ (reset_round st0 ["Paris!".toList]).correct_answers ↔
      ∃ a ∈ ["Paris!".toList], "paris!".toList = lowerStrip a) ∧
    ∀ b, normalize b ≠ "paris!".toList := by
  constructor
  · exact (c6_reset_answers st0 ["Paris!".toList]).1 "paris!".toList
  · exact (c6_reset_answers st0 ["Paris!".toList]).2 "paris!".toList
      (by decide) ⟨'!', by decide, by decide⟩

end TriviaBot

namespace TriviaBot

theorem check_answer_leaderboard (st : BotState) (mo : Option Message) :
    (check_answer st mo).leaderboard_data = st.leaderboard_data := by
  rcases check_answer_cases st mo with h | ⟨m, ts, qt, ct, _, _, _, _, _, _, _, _, _, h⟩
  · rw [h]
  · rw [h]
    rfl

theorem foldl_check_answer_leaderboard (l : List (Option Message))
    (st : BotState) :
    (l.foldl check_answer st).leaderboard_data = st.leaderboard_data := by
  induction l generalizing st with
  | nil => rfl
  | cons mo l2 ih =>
    rw [List.foldl_cons, ih, check_answer_leaderboard]

/-- C1 counterexample: with a winner already recorded, a Gateway failure on
the STOP send makes `run_question` propagate the exception (crash flag) and
skip leaderboard finalization entirely: no entry is appended for the
round. -/
theorem c1_counterexample :
    (run_question st0 "q".toList ["paris".toList] false gwStopFail 100
      [some msgAccept] [] []).2 = true ∧
    (run_question st0 "q".toList ["paris".toList] false gwStopFail 100
      [some msgAccept] [] []).1.leaderboard_data = [] ∧
    (run_question st0 "q".toList ["paris".toList] false gwStopFail 100
      [some msgAccept] [] []).1.correct_respondents.length = 1 := by
  exact ⟨by decide, by decide, by decide⟩

/-- C1 (amended): a Gateway send failure anywhere in the round timeline
propagates out of `run_question` (the crash flag is set) and the
leaderboard is left unchanged — the round is NOT finalized; only a round
whose sends all succeed appends exactly one entry. -/
theorem c1_send_failure_no_finalize (st : BotState) (q : Str)
    (answers : List Str) (is_last : Bool) (gw : Gateway) (now : Int)
    (ib1 ib2 ib3 : List (Option Message)) :
    ((run_question st q answers is_last gw now ib1 ib2 ib3).2 = true →
      (run_question st q answers is_last gw now ib1 ib2 ib3).1.leaderboard_data
        = st.leaderboard_data) ∧
    ((run_question st q answers is_last gw now ib1 ib2 ib3).2 = false →
      ∃ e, (run_question st q answers is_last gw now ib1 ib2 ib3).1.leaderboard_data
        = st.leaderboard_data ++ [e]) := by
  unfold run_question
  cases hg0 : gw 0 with
  | none =>
    constructor
    · intro _
      simp [reset_round]
    · intro h
      simp at h
  | some msg =>
    cases hg1 : gw 1 with
    | none =>
      constructor
      · intro _
        simp [foldl_check_answer_leaderboard, reset_round]
      · intro h
        simp at h
    | some ack1 =>
      cases hg2 : gw 2 with
      | none =>
        constructor
        · intro _
          simp [foldl_check_answer_leaderboard, reset_round]
        · intro h
          simp at h
      | some ack2 =>
        cases is_last with
        | true =>
          constructor
          · intro h
            simp at h
          · intro _
            simp [foldl_check_answer_leaderboard, reset_round]
        | false =>
          cases hg3 : gw 3 with
          | none =>
            constructor
            · intro _
              simp [send_next, hg3, foldl_check_answer_leaderboard, reset_round]
            · intro h
              simp [send_next, hg3] at h
          | some ack3 =>
            constructor
            · intro h
              simp [send_next, hg3] at h
            · intro _
              simp [send_next, hg3, foldl_check_answer_leaderboard,
                reset_round]

end TriviaBot

namespace TriviaBot

theorem c1_send_failure_no_finalize_witness :
    (run_question st0 "q".toList ["paris".toList] false gwStopFail 100
      [some msgAccept] [] []).1.leaderboard_data = st0.leaderboard_data := by
  exact (c1_send_failure_no_finalize st0 "q".toList ["paris".toList] false
    gwStopFail 100 [some msgAccept] [] []).1 (by decide)

end TriviaBot
